import Mathlib

/-!
Verification of the resiliencepy core: the curve generator, the policy
effect model, single and batch simulation (engine.py) and the metrics
layer (metrics.py).  Machine floats are modelled by real numbers; the
metric reducers are stated over an arbitrary linear ordered field so
that concrete witnesses can be evaluated over the rationals.
-/

namespace Resilience

/-- Source helper clip01: clamp a value into the unit interval,
`max(0.0, min(1.0, x))`. -/
def clip01 {α : Type*} [LinearOrder α] [Zero α] [One α] (x : α) : α :=
  max 0 (min 1 x)

/-- Python `round` on a real value: round half to even (CPython float
rounding), otherwise round to the nearest integer. -/
noncomputable def pyround (x : ℝ) : ℤ :=
  if x - ⌊x⌋ = 1 / 2 then (if 2 ∣ ⌊x⌋ then ⌊x⌋ else ⌊x⌋ + 1) else ⌊x + 1 / 2⌋

/-- Disruption value object (disruptions.py): the constructor clamps
`severity` into [0,1] and rejects `duration_days ≤ 0` and
`start_day < 0`; the fields below hold the already validated values. -/
structure Disruption where
  kind : String
  severity : ℝ
  duration_days : ℕ
  start_day : ℕ

/-- Policy value object (policies.py): `safety_stock` is clamped
into [0,1] at construction. -/
structure Policy where
  safety_stock : ℝ
  expediting : Bool
  overtime : Bool
  dual_sourcing : Bool
  rerouting : Bool

/-- `_policy_effects` (engine.py): returns
`(depth_mult, ttr_mult, cost_proxy)`.  The sequential in-place updates
of the source are written as products of the per-lever factors. -/
noncomputable def policy_effects (p : Policy) : ℝ × ℝ × ℝ :=
  let depth_mult : ℝ :=
    (if 0 < p.safety_stock then 1 * (1 - 0.6 * p.safety_stock) else 1) *
      (if p.dual_sourcing then 0.75 else 1)
  let ttr_mult : ℝ :=
    (if p.dual_sourcing then (0.80 : ℝ) else 1) *
      (if p.rerouting then (0.90 : ℝ) else 1) *
      (if p.expediting then (0.75 : ℝ) else 1) *
      (if p.overtime then (0.85 : ℝ) else 1)
  let cost_proxy : ℝ :=
    (if 0 < p.safety_stock then 0.4 * p.safety_stock else 0) +
      (if p.dual_sourcing then (0.15 : ℝ) else 0) +
      (if p.rerouting then (0.10 : ℝ) else 0) +
      (if p.expediting then (0.35 : ℝ) else 0) +
      (if p.overtime then (0.25 : ℝ) else 0)
  (depth_mult, ttr_mult, cost_proxy)

/-- The four curve shape names recognised by `_curve_1d` (engine.py). -/
def isKnownShape (s : String) : Bool :=
  s = "linear" || s = "exponential" || s = "logistic" || s = "delayed_rebound"

/-- The sigmoid `1 / (1 + exp(-k * (x - 0.5)))` used by the logistic and
delayed-rebound branches of `_curve_1d`. -/
noncomputable def sigmoid (k x : ℝ) : ℝ :=
  1 / (1 + Real.exp (-k * (x - 0.5)))

/-- The endpoint-normalised sigmoid `(sig - sig0) / (sig1 - sig0)` of
`_curve_1d`. -/
noncomputable def sigN (k x : ℝ) : ℝ :=
  (sigmoid k x - sigmoid k 0) / (sigmoid k 1 - sigmoid k 0)

/-- The recovery value of `_curve_1d` at normalised progress `x ∈ [0,1]`,
one branch per shape family, before the overshoot term is added.  The
final catch-all value is never used: `curve_1d` only applies `rec_val`
to shapes accepted by `isKnownShape`. -/
noncomputable def rec_val (shape : String) (impact_level : ℝ) (ttr : ℕ)
    (delay_days : ℕ) (x : ℝ) : ℝ :=
  if shape = "linear" then
    impact_level + (1 - impact_level) * x
  else if shape = "exponential" then
    impact_level + (1 - impact_level) * (1 - Real.exp (-4 * x)) / (1 - Real.exp (-4))
  else if shape = "logistic" then
    impact_level + (1 - impact_level) * sigN 10 x
  else if shape = "delayed_rebound" then
    let delay_frac : ℝ := min 0.9 ((delay_days : ℝ) / ((max 1 ttr : ℕ) : ℝ))
    if delay_frac ≤ x then
      let xr : ℝ := (x - delay_frac) / max 1e-9 (1 - delay_frac)
      impact_level + (1 - impact_level) * sigN 12 xr
    else impact_level
  else 0

/-- `_curve_1d` (engine.py): the unit performance curve of length `T`,
given as the function taking a time index to the value the final numpy
array holds there; `none` models the unknown-shape `ValueError`.
Mirrors the source: all ones when `start ≥ T`; the step function when
the recovery window degenerates (`n ≤ 1`); otherwise interpolation over
`x = linspace(0,1,n)` on `[start, end]`, the overshoot term added when
`overshoot > 0`, and the value at `end` held through the rest of the
horizon. -/
noncomputable def curve_1d (shape : String) (impact_level : ℝ) (ttr : ℕ)
    (T : ℕ) (start : ℕ) (delay_days : ℕ) (overshoot : ℝ) :
    Option (ℕ → ℝ) :=
  if T ≤ start then some (fun _ => 1)
  else
    let e := min (T - 1) (start + ttr)
    let n := e - start + 1
    if n ≤ 1 then some (fun i => if i < start then 1 else impact_level)
    else if isKnownShape shape then
      let v : ℕ → ℝ := fun j =>
        let x : ℝ := (j : ℝ) / ((n - 1 : ℕ) : ℝ)
        rec_val shape impact_level ttr delay_days x +
          (if 0 < overshoot then overshoot * x ^ 2 else 0)
      some (fun i => if i < start then 1 else if i ≤ e then v (i - start) else v (e - start))
    else none

/-- Read a curve value out of the optional result of `curve_1d`
(0 when the generator raised). -/
noncomputable def curveGet (o : Option (ℕ → ℝ)) (i : ℕ) : ℝ :=
  (o.getD fun _ => 0) i

/-- The result of a single simulation: the `RecoverySeries` performance
array together with the derived quantities `simulate` stores in the
series metadata. -/
structure SimResult where
  performance : ℕ → ℝ
  baseline : ℝ
  depth : ℝ
  ttr_model : ℕ
  cost_proxy : ℝ

/-- `base_ttr` of `simulate` (engine.py line 123):
`max(3, round(duration_days * (1.2 + 1.6 * severity)))`. -/
noncomputable def simulate_base_ttr (d : Disruption) : ℤ :=
  max 3 (pyround ((d.duration_days : ℝ) * (1.2 + 1.6 * d.severity)))

/-- `ttr` of `simulate` (engine.py line 124):
`max(2, round(base_ttr * ttr_mult))`. -/
noncomputable def simulate_ttr (d : Disruption) (p : Policy) : ℤ :=
  max 2 (pyround ((simulate_base_ttr d : ℝ) * (policy_effects p).2.1))

/-- `delay_days` of `simulate` (engine.py line 127):
`int(0.3 * duration_days)` -- Python `int()` truncation -- for the
delayed-rebound shape, otherwise 0. -/
noncomputable def simulate_delay_days (d : Disruption) (shape : String) : ℕ :=
  if shape = "delayed_rebound" then (⌊(0.3 : ℝ) * (d.duration_days : ℝ)⌋).toNat else 0

/-- `simulate` (engine.py): single scenario simulation.  `none` models
the raised `ValueError`s (non-positive horizon, unknown shape reached
inside the curve generator). -/
noncomputable def simulate (d : Disruption) (p : Policy) (horizon_days : ℤ)
    (baseline : ℝ) (curve_shape : String) : Option SimResult :=
  if horizon_days ≤ 0 then none
  else
    let depth : ℝ := clip01 (clip01 d.severity * (policy_effects p).1)
    let ttr : ℕ := (simulate_ttr d p).toNat
    let overshoot : ℝ := if p.overtime then 0.05 else 0
    (curve_1d curve_shape (1 - depth) ttr horizon_days.toNat d.start_day
        (simulate_delay_days d curve_shape) overshoot).map
      fun u =>
        SimResult.mk (fun i => u i * baseline) baseline depth
          (simulate_ttr d p).toNat (policy_effects p).2.2

/-- Performance accessor on an optional simulation result. -/
noncomputable def simPerf (o : Option SimResult) : ℕ → ℝ :=
  o.elim (fun _ => 0) SimResult.performance

/-- Depth accessor on an optional simulation result. -/
noncomputable def simDepth (o : Option SimResult) : ℝ :=
  o.elim 0 SimResult.depth

/-- Resolved time-to-recovery accessor on an optional simulation result. -/
def simTtr (o : Option SimResult) : ℕ :=
  o.elim 0 SimResult.ttr_model

/-- Python list repetition `l * k`. -/
def listMul {α : Type*} (l : List α) (k : ℕ) : List α :=
  (List.replicate k l).flatten

/-- Run an option-valued function over a list, aborting at the first
failure: the batch loop of `simulate_batch`, where any raised error
aborts the whole call. -/
def mapOpt {α β : Type*} (f : α → Option β) : List α → Option (List β)
  | [] => some []
  | a :: t =>
    match f a with
    | none => none
    | some b => (mapOpt f t).map fun r => b :: r

/-- `simulate_batch` (engine.py): validates the horizon and the two
lists, broadcasts a length-1 side by Python list repetition, then runs
`simulate` on each pair, stacking the performance rows. -/
noncomputable def simulate_batch (ds : List Disruption) (ps : List Policy)
    (horizon_days : ℤ) (baseline : ℝ) (curve_shape : String) :
    Option (List (ℕ → ℝ)) :=
  if horizon_days ≤ 0 then none
  else if ds.length = 0 ∨ ps.length = 0 then none
  else
    let pair : Option (List Disruption × List Policy) :=
      if ds.length = ps.length then some (ds, ps)
      else if ds.length = 1 then some (listMul ds ps.length, ps)
      else if ps.length = 1 then some (ds, listMul ps ds.length)
      else none
    match pair with
    | none => none
    | some (ds2, ps2) =>
      mapOpt
        (fun dp =>
          (simulate dp.1 dp.2 horizon_days baseline curve_shape).map
            SimResult.performance)
        (ds2.zip ps2)

/-- Row count of an optional batch result. -/
def batchLen (o : Option (List (ℕ → ℝ))) : ℕ :=
  o.elim 0 List.length

section Metrics

variable {α : Type*} [LinearOrderedField α]

/-- `np.min` over a nonempty list (junk value 0 on the empty list, where
numpy raises). -/
def listMin : List α → α
  | [] => 0
  | [a] => a
  | a :: b :: t => min a (listMin (b :: t))

/-- `np.argmin`: the first index attaining the minimum (junk value 0 on
the empty list, where numpy raises). -/
def argmin_list : List α → ℕ
  | [] => 0
  | [_] => 0
  | a :: b :: t => if a ≤ listMin (b :: t) then 0 else argmin_list (b :: t) + 1

/-- Index of the first element `≥ thr`, i.e. `np.where(l >= thr)[0][0]`
guarded by the emptiness check of the source. -/
def firstGe (thr : α) : List α → Option ℕ
  | [] => none
  | a :: t => if thr ≤ a then some 0 else (firstGe thr t).map (· + 1)

/-- `time_to_recovery` (metrics.py), 1D branch: threshold
`baseline * (1 - eps)`, argmin of the performance, first index at or
after the argmin reaching the threshold (absolute), else -1. -/
def time_to_recovery (perf : List α) (b : α) (eps : α) : ℤ :=
  let thr := b * (1 - eps)
  let m := argmin_list perf
  match firstGe thr (perf.drop m) with
  | some j => ((m + j : ℕ) : ℤ)
  | none => -1

/-- `time_to_recovery` with its default `eps = 0.02`. -/
def time_to_recovery_dflt (perf : List α) (b : α) : ℤ :=
  time_to_recovery perf b 0.02

/-- `time_to_recovery` (metrics.py), batch branch: the same computation
row by row. -/
def time_to_recovery_batch (rows : List (List α)) (b : α) (eps : α) : List ℤ :=
  rows.map fun r => time_to_recovery r b eps

/-- `area_of_loss` (metrics.py): `sum(max(0, baseline - perf))` along
the time axis. -/
def area_of_loss (perf : List α) (b : α) : α :=
  (perf.map fun x => max 0 (b - x)).sum

/-- `worst = (b - min(perf)) * T` of `resilience_index` (metrics.py). -/
def worst_case_loss (perf : List α) (b : α) : α :=
  (b - listMin perf) * (perf.length : α)

/-- `resilience_index` (metrics.py), per scenario:
`where(worst > 1e-9, 1 - aol / worst, 1)` clipped into [0,1]. -/
def resilience_index (perf : List α) (b : α) : α :=
  clip01
    (if (1e-9 : α) < worst_case_loss perf b then
      1 - area_of_loss perf b / worst_case_loss perf b
    else 1)

/-- `resilience_index` on a batch: the same computation row by row. -/
def resilience_index_batch (rows : List (List α)) (b : α) : List α :=
  rows.map fun r => resilience_index r b

end Metrics

section MetricsLemmas

variable {α : Type*} [LinearOrderedField α]

theorem clip01_nonneg (x : α) : 0 ≤ clip01 x :=
  le_max_left 0 _

theorem clip01_le_one (x : α) : clip01 x ≤ 1 :=
  max_le zero_le_one (min_le_left 1 x)

theorem clip01_one : clip01 (1 : α) = 1 := by
  simp [clip01]

theorem listMin_le (l : List α) : ∀ x ∈ l, listMin l ≤ x := by
  induction l with
  | nil => intro x hx; cases hx
  | cons a t ih =>
    cases t with
    | nil => intro x hx; simp at hx; simp [listMin, hx]
    | cons b t2 =>
      intro x hx
      rcases List.mem_cons.mp hx with h | h
      · simp [listMin, h, min_le_left]
      · exact le_trans (min_le_right _ _) (ih x h)

theorem listMin_mem (l : List α) (h : l ≠ []) : listMin l ∈ l := by
  induction l with
  | nil => exact absurd rfl h
  | cons a t ih =>
    cases t with
    | nil => simp [listMin]
    | cons b t2 =>
      rcases le_total a (listMin (b :: t2)) with hle | hle
      · simp [listMin, min_eq_left hle]
      · have : listMin (a :: b :: t2) = listMin (b :: t2) := by
          simp [listMin, min_eq_right hle]
        rw [this]
        exact List.mem_cons_of_mem a (ih (by simp))

theorem argmin_lt_length (l : List α) (h : l ≠ []) : argmin_list l < l.length := by
  induction l with
  | nil => exact absurd rfl h
  | cons a t ih =>
    cases t with
    | nil => simp [argmin_list]
    | cons b t2 =>
      by_cases hle : a ≤ listMin (b :: t2)
      · simp [argmin_list, hle]
      · have h2 := ih (by simp)
        simp only [argmin_list, if_neg hle, List.length_cons] at h2 ⊢
        omega

theorem argmin_getD (l : List α) (h : l ≠ []) :
    l.getD (argmin_list l) 0 = listMin l := by
  induction l with
  | nil => exact absurd rfl h
  | cons a t ih =>
    cases t with
    | nil => simp [argmin_list, listMin]
    | cons b t2 =>
      by_cases hle : a ≤ listMin (b :: t2)
      · simp [argmin_list, hle, listMin, min_eq_left hle]
      · have hlt : listMin (b :: t2) < a := lt_of_not_le hle
        simp only [argmin_list, if_neg hle, List.getD_cons_succ]
        rw [ih (by simp)]
        simp [listMin, min_eq_right (le_of_lt hlt)]

theorem argmin_first (l : List α) :
    ∀ k, k < argmin_list l → listMin l < l.getD k 0 := by
  induction l with
  | nil => intro k hk; simp [argmin_list] at hk
  | cons a t ih =>
    cases t with
    | nil => intro k hk; simp [argmin_list] at hk
    | cons b t2 =>
      intro k hk
      by_cases hle : a ≤ listMin (b :: t2)
      · simp [argmin_list, hle] at hk
      · have hlt : listMin (b :: t2) < a := lt_of_not_le hle
        have hmin : listMin (a :: b :: t2) = listMin (b :: t2) := by
          simp [listMin, min_eq_right (le_of_lt hlt)]
        simp only [argmin_list, if_neg hle] at hk
        cases k with
        | zero => simpa [hmin] using hlt
        | succ k2 =>
          rw [hmin, List.getD_cons_succ]
          exact ih k2 (by omega)

theorem firstGe_none_iff (thr : α) (l : List α) :
    firstGe thr l = none ↔ ∀ x ∈ l, x < thr := by
  induction l with
  | nil => simp [firstGe]
  | cons a t ih =>
    by_cases hle : thr ≤ a
    · simp only [firstGe, if_pos hle]
      constructor
      · intro h; simp at h
      · intro h
        exact absurd (h a (List.mem_cons_self a t)) (not_lt.mpr hle)
    · simp only [firstGe, if_neg hle, Option.map_eq_none', ih]
      constructor
      · intro h x hx
        rcases List.mem_cons.mp hx with rfl | hx2
        · exact lt_of_not_le hle
        · exact h x hx2
      · intro h x hx
        exact h x (List.mem_cons_of_mem a hx)

theorem firstGe_some_iff (thr : α) (l : List α) (j : ℕ) :
    firstGe thr l = some j ↔
      j < l.length ∧ thr ≤ l.getD j 0 ∧ ∀ k, k < j → l.getD k 0 < thr := by
  induction l generalizing j with
  | nil => simp [firstGe]
  | cons a t ih =>
    by_cases hle : thr ≤ a
    · simp only [firstGe, if_pos hle]
      cases j with
      | zero => simp [hle]
      | succ j2 =>
        simp only [List.length_cons]
        constructor
        · intro h; cases h
        · intro ⟨_, _, hall⟩
          exact absurd (hall 0 (by omega)) (by simp [not_lt.mpr hle])
    · simp only [firstGe, if_neg hle, Option.map_eq_some']
      cases j with
      | zero =>
        simp only [List.getD_cons_zero]
        constructor
        · intro ⟨j0, _, hj0⟩; cases hj0
        · intro ⟨_, habs, _⟩; exact absurd habs hle
      | succ j2 =>
        constructor
        · intro ⟨j0, hj0, hj0e⟩
          have : j0 = j2 := by omega
          subst this
          obtain ⟨h1, h2, h3⟩ := (ih j0).mp hj0
          refine ⟨by simpa using Nat.succ_lt_succ h1, by simpa using h2, ?_⟩
          intro k hk
          cases k with
          | zero => simpa using lt_of_not_le hle
          | succ k2 => simpa using h3 k2 (by omega)
        · intro ⟨h1, h2, h3⟩
          refine ⟨j2, (ih j2).mpr ⟨by simp at h1; omega, by simpa using h2, ?_⟩, rfl⟩
          intro k hk
          simpa using h3 (k + 1) (by omega)

end MetricsLemmas

section EngineLemmas

theorem sigmoid_lt (k : ℝ) (hk : 0 < k) : sigmoid k 0 < sigmoid k 1 := by
  unfold sigmoid
  have h1 : Real.exp (-k * (1 - 0.5)) < Real.exp (-k * (0 - 0.5)) :=
    Real.exp_lt_exp.mpr (by nlinarith)
  have h2 : 0 < 1 + Real.exp (-k * (1 - 0.5)) := by positivity
  exact one_div_lt_one_div_of_lt h2 (by linarith)

theorem sigN_zero (k : ℝ) : sigN k 0 = 0 := by
  simp [sigN]

theorem sigN_one (k : ℝ) (hk : 0 < k) : sigN k 1 = 1 :=
  div_self (ne_of_gt (sub_pos.mpr (sigmoid_lt k hk)))

theorem isKnownShape_cases (s : String) (hs : isKnownShape s = true) :
    s = "linear" ∨ s = "exponential" ∨ s = "logistic" ∨ s = "delayed_rebound" := by
  simpa [isKnownShape, or_assoc] using hs

theorem delay_frac_nonneg (delay_days ttr : ℕ) :
    0 ≤ min (0.9 : ℝ) ((delay_days : ℝ) / ((max 1 ttr : ℕ) : ℝ)) :=
  le_min (by norm_num) (div_nonneg (Nat.cast_nonneg _) (Nat.cast_nonneg _))

theorem rec_val_linear (il : ℝ) (ttr delay_days : ℕ) (x : ℝ) :
    rec_val "linear" il ttr delay_days x = il + (1 - il) * x := by
  unfold rec_val
  rw [if_pos rfl]

theorem rec_val_exponential (il : ℝ) (ttr delay_days : ℕ) (x : ℝ) :
    rec_val "exponential" il ttr delay_days x =
      il + (1 - il) * (1 - Real.exp (-4 * x)) / (1 - Real.exp (-4)) := by
  unfold rec_val
  rw [if_neg (by decide), if_pos rfl]

theorem rec_val_logistic (il : ℝ) (ttr delay_days : ℕ) (x : ℝ) :
    rec_val "logistic" il ttr delay_days x = il + (1 - il) * sigN 10 x := by
  unfold rec_val
  rw [if_neg (by decide), if_neg (by decide), if_pos rfl]

theorem rec_val_delayed (il : ℝ) (ttr delay_days : ℕ) (x : ℝ) :
    rec_val "delayed_rebound" il ttr delay_days x =
      if min (0.9 : ℝ) ((delay_days : ℝ) / ((max 1 ttr : ℕ) : ℝ)) ≤ x then
        il + (1 - il) *
          sigN 12 ((x - min (0.9 : ℝ) ((delay_days : ℝ) / ((max 1 ttr : ℕ) : ℝ))) /
            max 1e-9 (1 - min (0.9 : ℝ) ((delay_days : ℝ) / ((max 1 ttr : ℕ) : ℝ))))
      else il := by
  unfold rec_val
  rw [if_neg (by decide), if_neg (by decide), if_neg (by decide), if_pos rfl]

theorem rec_val_zero (s : String) (il : ℝ) (ttr delay_days : ℕ)
    (hs : isKnownShape s = true) : rec_val s il ttr delay_days 0 = il := by
  rcases isKnownShape_cases s hs with h | h | h | h <;> subst h
  · rw [rec_val_linear]; ring
  · rw [rec_val_exponential]
    norm_num
  · rw [rec_val_logistic, sigN_zero]; ring
  · rw [rec_val_delayed]
    set df : ℝ := min (0.9 : ℝ) ((delay_days : ℝ) / ((max 1 ttr : ℕ) : ℝ)) with hdf
    have hnn : 0 ≤ df := delay_frac_nonneg delay_days ttr
    by_cases hle : df ≤ 0
    · have hdf0 : df = 0 := le_antisymm hle hnn
      rw [if_pos hle, hdf0]
      norm_num [sigN_zero]
    · rw [if_neg hle]

theorem rec_val_one (s : String) (il : ℝ) (ttr delay_days : ℕ)
    (hs : isKnownShape s = true) : rec_val s il ttr delay_days 1 = 1 := by
  rcases isKnownShape_cases s hs with h | h | h | h <;> subst h
  · rw [rec_val_linear]; ring
  · have hne : 1 - Real.exp (-4 : ℝ) ≠ 0 := by
      have h1 : Real.exp (-4 : ℝ) < 1 := Real.exp_lt_one_iff.mpr (by norm_num)
      linarith
    rw [rec_val_exponential, show (-4 : ℝ) * 1 = -4 by ring, mul_div_assoc,
      div_self hne]
    ring
  · rw [rec_val_logistic, sigN_one 10 (by norm_num)]
    ring
  · rw [rec_val_delayed]
    set df : ℝ := min (0.9 : ℝ) ((delay_days : ℝ) / ((max 1 ttr : ℕ) : ℝ)) with hdf
    have hub : df ≤ 0.9 := min_le_left _ _
    have hgap : (0.1 : ℝ) ≤ 1 - df := by linarith
    rw [if_pos (by linarith : df ≤ 1)]
    have hmax : max (1e-9 : ℝ) (1 - df) = 1 - df := max_eq_right (by linarith)
    rw [hmax, div_self (by linarith : (1 : ℝ) - df ≠ 0), sigN_one 12 (by norm_num)]
    ring

theorem curveGet_some (f : ℕ → ℝ) (i : ℕ) : curveGet (some f) i = f i := rfl

theorem curve_1d_all_ones (s : String) (il : ℝ) (ttr T start delay : ℕ) (ov : ℝ)
    (h : T ≤ start) : curve_1d s il ttr T start delay ov = some (fun _ => 1) := by
  unfold curve_1d
  rw [if_pos h]

theorem curve_1d_degenerate (s : String) (il : ℝ) (ttr T start delay : ℕ) (ov : ℝ)
    (h1 : ¬ T ≤ start) (h2 : min (T - 1) (start + ttr) - start + 1 ≤ 1) :
    curve_1d s il ttr T start delay ov =
      some (fun i => if i < start then 1 else il) := by
  simp only [curve_1d, if_neg h1, if_pos h2]

theorem curve_1d_known (s : String) (il : ℝ) (ttr T start delay : ℕ) (ov : ℝ)
    (hs : isKnownShape s = true) (h2 : start + 1 < T) (httr : 1 ≤ ttr) :
    curve_1d s il ttr T start delay ov =
      some (fun i =>
        if i < start then 1
        else if i ≤ min (T - 1) (start + ttr) then
          rec_val s il ttr delay
              (((i - start : ℕ) : ℝ) / ((min (T - 1) (start + ttr) - start : ℕ) : ℝ)) +
            (if 0 < ov then
              ov * (((i - start : ℕ) : ℝ) / ((min (T - 1) (start + ttr) - start : ℕ) : ℝ)) ^ 2
            else 0)
        else
          rec_val s il ttr delay
              (((min (T - 1) (start + ttr) - start : ℕ) : ℝ) /
                ((min (T - 1) (start + ttr) - start : ℕ) : ℝ)) +
            (if 0 < ov then
              ov * (((min (T - 1) (start + ttr) - start : ℕ) : ℝ) /
                ((min (T - 1) (start + ttr) - start : ℕ) : ℝ)) ^ 2
            else 0)) := by
  have h1 : ¬ T ≤ start := by omega
  have hn : ¬ (min (T - 1) (start + ttr) - start + 1 ≤ 1) := by omega
  simp only [curve_1d, if_neg h1, if_neg hn, if_pos hs, Nat.add_sub_cancel]

theorem curve_1d_none_iff (s : String) (il : ℝ) (ttr T start delay : ℕ) (ov : ℝ) :
    curve_1d s il ttr T start delay ov = none ↔
      isKnownShape s = false ∧ start + 1 < T ∧ 1 ≤ ttr := by
  by_cases h1 : T ≤ start
  · rw [curve_1d_all_ones s il ttr T start delay ov h1]
    constructor
    · intro h; cases h
    · rintro ⟨_, hlt, _⟩; exact (by omega : False).elim
  · by_cases hn : min (T - 1) (start + ttr) - start + 1 ≤ 1
    · rw [curve_1d_degenerate s il ttr T start delay ov h1 hn]
      constructor
      · intro h; cases h
      · rintro ⟨_, ha, hb⟩; exact (by omega : False).elim
    · by_cases hB : isKnownShape s = true
      · rw [curve_1d_known s il ttr T start delay ov hB (by omega) (by omega)]
        constructor
        · intro h; cases h
        · rintro ⟨hf, _, _⟩; rw [hB] at hf; cases hf
      · have hB2 : isKnownShape s = false := by simpa using hB
        have hcurve : curve_1d s il ttr T start delay ov = none := by
          simp only [curve_1d, if_neg h1, if_neg hn]
          rw [if_neg hB]
        rw [hcurve]
        constructor
        · intro _; exact ⟨hB2, by omega, by omega⟩
        · intro _; rfl

theorem simulate_ttr_ge_two (d : Disruption) (p : Policy) :
    2 ≤ (simulate_ttr d p).toNat := by
  have h := le_max_left 2 (pyround ((simulate_base_ttr d : ℝ) * (policy_effects p).2.1))
  unfold simulate_ttr
  omega

theorem simulate_eq (d : Disruption) (p : Policy) (hor : ℤ) (b : ℝ) (s : String)
    (hh : ¬ hor ≤ 0) :
    simulate d p hor b s =
      (curve_1d s (1 - clip01 (clip01 d.severity * (policy_effects p).1))
          (simulate_ttr d p).toNat hor.toNat d.start_day (simulate_delay_days d s)
          (if p.overtime then 0.05 else 0)).map
        fun u =>
          SimResult.mk (fun i => u i * b) b
            (clip01 (clip01 d.severity * (policy_effects p).1))
            (simulate_ttr d p).toNat (policy_effects p).2.2 := by
  simp only [simulate, if_neg hh]

theorem simulate_none_iff (d : Disruption) (p : Policy) (hor : ℤ) (b : ℝ)
    (s : String) :
    simulate d p hor b s = none ↔
      hor ≤ 0 ∨ (isKnownShape s = false ∧ d.start_day + 1 < hor.toNat) := by
  by_cases hh : hor ≤ 0
  · simp [simulate, hh]
  · rw [simulate_eq d p hor b s hh, Option.map_eq_none', curve_1d_none_iff]
    have hge := simulate_ttr_ge_two d p
    constructor
    · rintro ⟨hf, hlt, _⟩; exact Or.inr ⟨hf, hlt⟩
    · rintro (h | ⟨hf, hlt⟩)
      · exact absurd h hh
      · exact ⟨hf, hlt, by omega⟩

end EngineLemmas

section BatchLemmas

theorem mapOpt_length {α β : Type*} (f : α → Option β) (l : List α) (r : List β)
    (h : mapOpt f l = some r) : r.length = l.length := by
  induction l generalizing r with
  | nil =>
    simp only [mapOpt, Option.some_inj] at h
    subst h; rfl
  | cons a t ih =>
    simp only [mapOpt] at h
    cases hfa : f a with
    | none => rw [hfa] at h; cases h
    | some b =>
      rw [hfa] at h
      obtain ⟨r0, hr0, hr⟩ := Option.map_eq_some'.mp h
      subst hr
      simp [ih r0 hr0]

theorem mapOpt_get {α β : Type*} (f : α → Option β) (l : List α) (r : List β)
    (h : mapOpt f l = some r) :
    ∀ i (h1 : i < l.length) (h2 : i < r.length),
      f (l.get ⟨i, h1⟩) = some (r.get ⟨i, h2⟩) := by
  induction l generalizing r with
  | nil => intro i h1 _; simp at h1
  | cons a t ih =>
    simp only [mapOpt] at h
    cases hfa : f a with
    | none => rw [hfa] at h; cases h
    | some b =>
      rw [hfa] at h
      obtain ⟨r0, hr0, hr⟩ := Option.map_eq_some'.mp h
      subst hr
      intro i h1 h2
      cases i with
      | zero => simpa using hfa
      | succ i2 =>
        simpa using ih r0 hr0 i2 (by simpa using h1) (by simpa using h2)

theorem mapOpt_none_iff {α β : Type*} (f : α → Option β) (l : List α) :
    mapOpt f l = none ↔ ∃ a ∈ l, f a = none := by
  induction l with
  | nil => simp [mapOpt]
  | cons a t ih =>
    simp only [mapOpt]
    cases hfa : f a with
    | none =>
      simp only [true_iff]
      exact ⟨a, List.mem_cons_self a t, hfa⟩
    | some b =>
      simp only [Option.map_eq_none', ih]
      constructor
      · rintro ⟨x, hx, hfx⟩
        exact ⟨x, List.mem_cons_of_mem a hx, hfx⟩
      · rintro ⟨x, hx, hfx⟩
        rcases List.mem_cons.mp hx with rfl | hx2
        · rw [hfa] at hfx; cases hfx
        · exact ⟨x, hx2, hfx⟩

theorem listMul_singleton {α : Type*} (a : α) (k : ℕ) :
    listMul [a] k = List.replicate k a := by
  induction k with
  | zero => rfl
  | succ k2 ih =>
    simp only [listMul] at ih
    simp [listMul, List.replicate_succ, ih]

theorem exists_fst_zip {α β : Type*} (l : List α) (l2 : List β)
    (hlen : l.length = l2.length) (P : α → Prop) :
    (∃ pr ∈ l.zip l2, P pr.1) ↔ ∃ a ∈ l, P a := by
  constructor
  · rintro ⟨pr, hmem, hP⟩
    refine ⟨pr.1, ?_, hP⟩
    have : pr.1 ∈ (l.zip l2).map Prod.fst := List.mem_map_of_mem Prod.fst hmem
    rwa [List.map_fst_zip l l2 (le_of_eq hlen)] at this
  · rintro ⟨a, ha, hP⟩
    obtain ⟨⟨i, hi⟩, rfl⟩ := List.mem_iff_get.mp ha
    have hiz : i < (l.zip l2).length := by
      rw [List.length_zip]; omega
    refine ⟨(l.zip l2).get ⟨i, hiz⟩, List.get_mem (l.zip l2) i hiz, ?_⟩
    simp only [List.get_eq_getElem, List.getElem_zip]
    exact hP

theorem length_listMul {α : Type*} (l : List α) (k : ℕ) :
    (listMul l k).length = k * l.length := by
  simp [listMul]

/-- Unfolding of `simulate_batch` past its validation, with the
broadcasted pair of lists made explicit. -/
theorem simulate_batch_eq (ds : List Disruption) (ps : List Policy) (hor : ℤ)
    (b : ℝ) (s : String) (hh : ¬ hor ≤ 0) (hds : ds.length ≠ 0)
    (hps : ps.length ≠ 0) :
    simulate_batch ds ps hor b s =
      (if ds.length = ps.length then some (ds, ps)
        else if ds.length = 1 then some (listMul ds ps.length, ps)
        else if ps.length = 1 then some (ds, listMul ps ds.length)
        else none).elim none
        (fun dp =>
          mapOpt
            (fun pr =>
              (simulate pr.1 pr.2 hor b s).map SimResult.performance)
            (dp.1.zip dp.2)) := by
  simp only [simulate_batch, if_neg hh, if_neg (by omega : ¬ (ds.length = 0 ∨ ps.length = 0))]
  cases hq : (if ds.length = ps.length then some (ds, ps)
      else if ds.length = 1 then some (listMul ds ps.length, ps)
      else if ps.length = 1 then some (ds, listMul ps ds.length)
      else none) with
  | none => rfl
  | some dp => rfl

theorem simulate_batch_pairwise (ds : List Disruption) (ps : List Policy)
    (hor : ℤ) (b : ℝ) (s : String) (hh : ¬ hor ≤ 0) (hds : ds.length ≠ 0)
    (hps : ps.length ≠ 0) (heq : ds.length = ps.length) :
    simulate_batch ds ps hor b s =
      mapOpt
        (fun pr => (simulate pr.1 pr.2 hor b s).map SimResult.performance)
        (ds.zip ps) := by
  rw [simulate_batch_eq ds ps hor b s hh hds hps, if_pos heq]
  rfl

theorem simulate_batch_bcast_left (ds : List Disruption) (ps : List Policy)
    (hor : ℤ) (b : ℝ) (s : String) (hh : ¬ hor ≤ 0) (hds : ds.length ≠ 0)
    (hps : ps.length ≠ 0) (hne : ds.length ≠ ps.length) (h1 : ds.length = 1) :
    simulate_batch ds ps hor b s =
      mapOpt
        (fun pr => (simulate pr.1 pr.2 hor b s).map SimResult.performance)
        ((listMul ds ps.length).zip ps) := by
  rw [simulate_batch_eq ds ps hor b s hh hds hps, if_neg hne, if_pos h1]
  rfl

theorem simulate_batch_bcast_right (ds : List Disruption) (ps : List Policy)
    (hor : ℤ) (b : ℝ) (s : String) (hh : ¬ hor ≤ 0) (hds : ds.length ≠ 0)
    (hps : ps.length ≠ 0) (hne : ds.length ≠ ps.length) (h1 : ds.length ≠ 1)
    (hp1 : ps.length = 1) :
    simulate_batch ds ps hor b s =
      mapOpt
        (fun pr => (simulate pr.1 pr.2 hor b s).map SimResult.performance)
        (ds.zip (listMul ps ds.length)) := by
  rw [simulate_batch_eq ds ps hor b s hh hds hps, if_neg hne, if_neg h1,
    if_pos hp1]
  rfl

theorem simulate_batch_mismatch (ds : List Disruption) (ps : List Policy)
    (hor : ℤ) (b : ℝ) (s : String) (hh : ¬ hor ≤ 0) (hds : ds.length ≠ 0)
    (hps : ps.length ≠ 0) (hne : ds.length ≠ ps.length) (h1 : ds.length ≠ 1)
    (hp1 : ps.length ≠ 1) :
    simulate_batch ds ps hor b s = none := by
  rw [simulate_batch_eq ds ps hor b s hh hds hps, if_neg hne, if_neg h1,
    if_neg hp1]
  rfl

/-- One simulated row failing inside a batch, rephrased through
`simulate_none_iff` for a positive horizon. -/
theorem batch_row_none_iff (hor : ℤ) (b : ℝ) (s : String) (hh : ¬ hor ≤ 0)
    (pairs : List (Disruption × Policy)) :
    mapOpt
        (fun pr => (simulate pr.1 pr.2 hor b s).map SimResult.performance)
        pairs = none ↔
      ∃ pr ∈ pairs, isKnownShape s = false ∧ pr.1.start_day + 1 < hor.toNat := by
  rw [mapOpt_none_iff]
  constructor
  · rintro ⟨pr, hmem, hnone⟩
    rw [Option.map_eq_none', simulate_none_iff] at hnone
    rcases hnone with h | h
    · exact absurd h hh
    · exact ⟨pr, hmem, h⟩
  · rintro ⟨pr, hmem, hcond⟩
    refine ⟨pr, hmem, ?_⟩
    rw [Option.map_eq_none', simulate_none_iff]
    exact Or.inr hcond

theorem simulate_batch_none_iff (ds : List Disruption) (ps : List Policy)
    (hor : ℤ) (b : ℝ) (s : String) :
    simulate_batch ds ps hor b s = none ↔
      hor ≤ 0 ∨ ds = [] ∨ ps = [] ∨
        (ds.length ≠ ps.length ∧ ds.length ≠ 1 ∧ ps.length ≠ 1) ∨
        (isKnownShape s = false ∧
          ∃ d2 ∈ ds, d2.start_day + 1 < hor.toNat) := by
  by_cases hh : hor ≤ 0
  · simp [simulate_batch, hh]
  · by_cases hds : ds.length = 0
    · have hds2 : ds = [] := List.length_eq_zero.mp hds
      subst hds2
      simp [simulate_batch, hh]
    · by_cases hps : ps.length = 0
      · have hps2 : ps = [] := List.length_eq_zero.mp hps
        subst hps2
        simp [simulate_batch, hh]
      · have hdne : ds ≠ [] := by
          intro habs; subst habs; simp at hds
        have hpne : ps ≠ [] := by
          intro habs; subst habs; simp at hps
        by_cases heq : ds.length = ps.length
        · rw [simulate_batch_pairwise ds ps hor b s hh hds hps heq,
            batch_row_none_iff hor b s hh]
          rw [exists_fst_zip ds ps heq
            (fun d2 => isKnownShape s = false ∧ d2.start_day + 1 < hor.toNat)]
          constructor
          · rintro ⟨d2, hd2, hf, hlt⟩
            exact Or.inr (Or.inr (Or.inr (Or.inr ⟨hf, d2, hd2, hlt⟩)))
          · rintro (h | h | h | h | ⟨hf, d2, hd2, hlt⟩)
            · exact absurd h hh
            · exact absurd h hdne
            · exact absurd h hpne
            · exact absurd heq h.1
            · exact ⟨d2, hd2, hf, hlt⟩
        · by_cases h1 : ds.length = 1
          · obtain ⟨d0, rfl⟩ := List.length_eq_one.mp h1
            rw [simulate_batch_bcast_left [d0] ps hor b s hh hds hps heq h1,
              listMul_singleton, batch_row_none_iff hor b s hh]
            have hlen : (List.replicate ps.length d0).length = ps.length := by
              simp
            rw [exists_fst_zip (List.replicate ps.length d0) ps hlen
              (fun d2 => isKnownShape s = false ∧ d2.start_day + 1 < hor.toNat)]
            constructor
            · rintro ⟨d2, hd2, hf, hlt⟩
              have hd2e : d2 = d0 := List.eq_of_mem_replicate hd2
              subst hd2e
              exact Or.inr (Or.inr (Or.inr (Or.inr
                ⟨hf, d2, List.mem_singleton_self d2, hlt⟩)))
            · rintro (h | h | h | h | ⟨hf, d2, hd2, hlt⟩)
              · exact absurd h hh
              · exact absurd h hdne
              · exact absurd h hpne
              · exact absurd h1 h.2.1
              · have hd2e : d2 = d0 := List.mem_singleton.mp hd2
                subst hd2e
                refine ⟨d2, ?_, hf, hlt⟩
                rw [List.mem_replicate]
                exact ⟨hps, rfl⟩
          · by_cases hp1 : ps.length = 1
            · obtain ⟨p0, rfl⟩ := List.length_eq_one.mp hp1
              rw [simulate_batch_bcast_right ds [p0] hor b s hh hds hps heq h1 hp1,
                listMul_singleton, batch_row_none_iff hor b s hh]
              have hlen : ds.length = (List.replicate ds.length p0).length := by
                simp
              rw [exists_fst_zip ds (List.replicate ds.length p0) hlen
                (fun d2 => isKnownShape s = false ∧ d2.start_day + 1 < hor.toNat)]
              constructor
              · rintro ⟨d2, hd2, hf, hlt⟩
                exact Or.inr (Or.inr (Or.inr (Or.inr ⟨hf, d2, hd2, hlt⟩)))
              · rintro (h | h | h | h | ⟨hf, d2, hd2, hlt⟩)
                · exact absurd h hh
                · exact absurd h hdne
                · exact absurd h hpne
                · exact absurd hp1 h.2.2
                · exact ⟨d2, hd2, hf, hlt⟩
            · rw [simulate_batch_mismatch ds ps hor b s hh hds hps heq h1 hp1]
              constructor
              · intro _
                exact Or.inr (Or.inr (Or.inr (Or.inl ⟨heq, h1, hp1⟩)))
              · intro _
                rfl

end BatchLemmas

section MetricsLemmas2

variable {α : Type*} [LinearOrderedField α]

theorem getD_drop (l : List α) (d : α) (m j : ℕ) :
    (l.drop m).getD j d = l.getD (m + j) d := by
  simp [List.getD_eq_getElem?_getD, List.getElem?_drop]

theorem get_drop_eq_getD (l : List α) (d : α) (m i : ℕ)
    (hi : i < (l.drop m).length) :
    (l.drop m).get ⟨i, hi⟩ = l.getD (m + i) d := by
  rw [List.get_eq_getElem, ← List.getD_eq_getElem (l.drop m) d hi, getD_drop]

theorem forall_drop_iff (l : List α) (d : α) (m : ℕ) (P : α → Prop) :
    (∀ x ∈ l.drop m, P x) ↔ ∀ j, m ≤ j → j < l.length → P (l.getD j d) := by
  constructor
  · intro h j hmj hjl
    have hj2 : j - m < (l.drop m).length := by
      rw [List.length_drop]; omega
    have heq : (l.drop m).get ⟨j - m, hj2⟩ = l.getD j d := by
      rw [get_drop_eq_getD l d m (j - m) hj2]
      congr 1
      omega
    have hmem := List.get_mem (l.drop m) (j - m) hj2
    have := h _ hmem
    rwa [heq] at this
  · intro h x hx
    obtain ⟨⟨i, hi⟩, rfl⟩ := List.mem_iff_get.mp hx
    rw [get_drop_eq_getD l d m i hi]
    have hlen : i < l.length - m := by
      rw [List.length_drop] at hi; omega
    exact h (m + i) (by omega) (by omega)

theorem time_to_recovery_neg_iff (perf : List α) (b eps : α) :
    time_to_recovery perf b eps = -1 ↔
      firstGe (b * (1 - eps)) (perf.drop (argmin_list perf)) = none := by
  simp only [time_to_recovery]
  cases h : firstGe (b * (1 - eps)) (perf.drop (argmin_list perf)) with
  | none => simp [h]
  | some j =>
    simp only [h]
    constructor
    · intro habs
      exact absurd habs (by omega)
    · intro habs; cases habs

theorem time_to_recovery_of_firstGe (perf : List α) (b eps : α) (j : ℕ)
    (h : firstGe (b * (1 - eps)) (perf.drop (argmin_list perf)) = some j) :
    time_to_recovery perf b eps = ((argmin_list perf + j : ℕ) : ℤ) := by
  simp only [time_to_recovery, h]

end MetricsLemmas2

section Claims

/-- Claim C8: for every shape, impact level, ttr, delay and overshoot, if
`start ≥ T` then the generated curve is identically 1.0 at every index of
the horizon. -/
theorem c8_start_beyond_horizon (s : String) (il : ℝ) (ttr T start delay : ℕ)
    (ov : ℝ) (h : T ≤ start) :
    curve_1d s il ttr T start delay ov = some (fun _ => 1) :=
  curve_1d_all_ones s il ttr T start delay ov h

/-- Witness for C8 at a concrete input (an unknown shape, start beyond the
horizon). -/
theorem c8_start_beyond_horizon_witness :
    curve_1d "weird" (1 / 2) 3 4 7 0 0 = some (fun _ => 1) :=
  c8_start_beyond_horizon "weird" (1 / 2) 3 4 7 0 0 (by omega)

/-- Claim C9: for every generated curve with `start < T`, every value at an
index strictly after `min(start+ttr, T-1)` equals the value at
`min(start+ttr, T-1)` (flat hold through the end of the horizon). -/
theorem c9_flat_hold (s : String) (il : ℝ) (ttr T start delay : ℕ) (ov : ℝ)
    (j : ℕ) (h1 : start < T) (h2 : min (start + ttr) (T - 1) < j) (h3 : j < T) :
    curveGet (curve_1d s il ttr T start delay ov) j =
      curveGet (curve_1d s il ttr T start delay ov) (min (start + ttr) (T - 1)) := by
  by_cases hn : min (T - 1) (start + ttr) - start + 1 ≤ 1
  · rw [curve_1d_degenerate s il ttr T start delay ov (by omega) hn]
    rw [curveGet_some, curveGet_some]
    rw [if_neg (by omega : ¬ (j < start)),
      if_neg (by omega : ¬ (min (start + ttr) (T - 1) < start))]
  · by_cases hB : isKnownShape s = true
    · rw [curve_1d_known s il ttr T start delay ov hB (by omega) (by omega)]
      rw [curveGet_some, curveGet_some]
      rw [if_neg (by omega : ¬ (j < start)),
        if_neg (by omega : ¬ (j ≤ min (T - 1) (start + ttr))),
        if_neg (by omega : ¬ (min (start + ttr) (T - 1) < start)),
        if_pos (by omega : min (start + ttr) (T - 1) ≤ min (T - 1) (start + ttr))]
      rw [min_comm (start + ttr) (T - 1)]
    · have hB2 : isKnownShape s = false := by simpa using hB
      have hnone : curve_1d s il ttr T start delay ov = none := by
        rw [curve_1d_none_iff]
        exact ⟨hB2, by omega, by omega⟩
      rw [hnone]
      rfl

/-- Witness for C9 at a concrete input. -/
theorem c9_flat_hold_witness :
    curveGet (curve_1d "linear" (1 / 2) 1 3 0 0 0) 2 =
      curveGet (curve_1d "linear" (1 / 2) 1 3 0 0 0) (min (0 + 1) (3 - 1)) :=
  c9_flat_hold "linear" (1 / 2) 1 3 0 0 0 2 (by omega) (by omega) (by omega)

/-- Claim C3, counterexample: with shape linear, impact level 0, ttr 1,
T 1, start 0 (so `start < T` and `ttr ≥ 1`, as the claim requires), the
curve value at `min(start+ttr, T-1)` is the impact level 0, at distance 1
from the ≈1.0 the claim asserts: the recovery window degenerates whenever
`start = T - 1`. -/
theorem c3_endpoint_counterexample :
    curveGet (curve_1d "linear" 0 1 1 0 0 0) (min (0 + 1) (1 - 1)) = 0 ∧
    |curveGet (curve_1d "linear" 0 1 1 0 0 0) (min (0 + 1) (1 - 1)) - 1| = 1 := by
  have hc : curve_1d "linear" 0 1 1 0 0 0 =
      some (fun i => if i < 0 then 1 else 0) :=
    curve_1d_degenerate "linear" 0 1 1 0 0 0 (by omega) (by omega)
  constructor
  · rw [hc, curveGet_some]
    norm_num
  · rw [hc, curveGet_some]
    norm_num

/-- Claim C3, amended: for every known shape, impact level, `ttr ≥ 1` and
`start + 1 < T` (the claim's `start < T` strengthened to exclude the
degenerate window at `start = T - 1`), the curve equals `impact_level` at
index `start` and `1.0` (plus the overshoot term when overshoot > 0) at
index `min(start+ttr, T-1)`. -/
theorem c3_curve_endpoints (s : String) (il : ℝ) (ttr T start delay : ℕ)
    (ov : ℝ) (hs : isKnownShape s = true) (httr : 1 ≤ ttr)
    (hst : start + 1 < T) :
    curveGet (curve_1d s il ttr T start delay ov) start = il ∧
    curveGet (curve_1d s il ttr T start delay ov) (min (start + ttr) (T - 1)) =
      1 + (if 0 < ov then ov else 0) := by
  rw [curve_1d_known s il ttr T start delay ov hs hst httr]
  constructor
  · rw [curveGet_some]
    rw [if_neg (by omega : ¬ (start < start)),
      if_pos (by omega : start ≤ min (T - 1) (start + ttr))]
    simp only [Nat.sub_self, Nat.cast_zero, zero_div]
    rw [rec_val_zero s il ttr delay hs]
    by_cases hov : 0 < ov
    · rw [if_pos hov]; ring
    · rw [if_neg hov]; ring
  · rw [curveGet_some]
    rw [min_comm (start + ttr) (T - 1)]
    rw [if_neg (by omega : ¬ (min (T - 1) (start + ttr) < start)),
      if_pos (le_refl (min (T - 1) (start + ttr)))]
    have hx : ((min (T - 1) (start + ttr) - start : ℕ) : ℝ) /
        ((min (T - 1) (start + ttr) - start : ℕ) : ℝ) = 1 :=
      div_self (Nat.cast_ne_zero.mpr (by omega))
    rw [hx, rec_val_one s il ttr delay hs]
    by_cases hov : 0 < ov
    · rw [if_pos hov, if_pos hov]; norm_num
    · rw [if_neg hov, if_neg hov]

/-- Witness for the amended C3 at a concrete input. -/
theorem c3_curve_endpoints_witness :
    curveGet (curve_1d "linear" (1 / 2) 1 3 0 0 0) 0 = 1 / 2 ∧
    curveGet (curve_1d "linear" (1 / 2) 1 3 0 0 0) (min (0 + 1) (3 - 1)) =
      1 + (if (0 : ℝ) < 0 then (0 : ℝ) else 0) :=
  c3_curve_endpoints "linear" (1 / 2) 1 3 0 0 0 (by decide) (by omega) (by omega)

/-- Claim C2: for every series and every eps, the ttr metric computes the
first (strict ties broken towards the first occurrence) index of minimum
performance, returns the absolute index of the first position at or after
it where performance reaches `baseline * (1 - eps)`, and -1 when no such
position exists; the default eps is 0.02 and the batch form is the same
computation row by row. -/
theorem c2_ttr_spec {α : Type*} [LinearOrderedField α] (perf : List α)
    (b eps : α) (hne : perf ≠ []) :
    (argmin_list perf < perf.length ∧
      (∀ j, j < perf.length →
        perf.getD (argmin_list perf) 0 ≤ perf.getD j 0) ∧
      (∀ k, k < argmin_list perf →
        perf.getD (argmin_list perf) 0 < perf.getD k 0)) ∧
    (time_to_recovery perf b eps = -1 ↔
      ∀ j, argmin_list perf ≤ j → j < perf.length →
        perf.getD j 0 < b * (1 - eps)) ∧
    (∀ j, argmin_list perf ≤ j → j < perf.length →
      b * (1 - eps) ≤ perf.getD j 0 →
      (∀ k, argmin_list perf ≤ k → k < j → perf.getD k 0 < b * (1 - eps)) →
      time_to_recovery perf b eps = (j : ℤ)) ∧
    (time_to_recovery_dflt perf b = time_to_recovery perf b 0.02) ∧
    (∀ rows : List (List α), time_to_recovery_batch rows b eps =
      rows.map fun r => time_to_recovery r b eps) := by
  refine ⟨⟨argmin_lt_length perf hne, ?_, ?_⟩, ?_, ?_, rfl, fun rows => rfl⟩
  · intro j hj
    rw [argmin_getD perf hne]
    have hmem : perf.getD j 0 ∈ perf := by
      rw [List.getD_eq_getElem perf 0 hj]
      exact List.getElem_mem hj
    exact listMin_le perf _ hmem
  · intro k hk
    rw [argmin_getD perf hne]
    exact argmin_first perf k hk
  · rw [time_to_recovery_neg_iff, firstGe_none_iff,
      forall_drop_iff perf 0 (argmin_list perf)
        (fun x => x < b * (1 - eps))]
  · intro j hmj hjl hthr hfirst
    have hj2 : j - argmin_list perf < (perf.drop (argmin_list perf)).length := by
      rw [List.length_drop]; omega
    have hfg : firstGe (b * (1 - eps)) (perf.drop (argmin_list perf)) =
        some (j - argmin_list perf) := by
      rw [firstGe_some_iff]
      refine ⟨hj2, ?_, ?_⟩
      · rw [getD_drop]
        have hplus : argmin_list perf + (j - argmin_list perf) = j := by omega
        rw [hplus]
        exact hthr
      · intro k hk
        rw [getD_drop]
        exact hfirst (argmin_list perf + k) (by omega) (by omega)
    rw [time_to_recovery_of_firstGe perf b eps _ hfg]
    congr 1
    omega

/-- Witness for C2 at a concrete rational series: [1, 1/2, 3/4, 1] with
baseline 1 and eps 0.02 recovers at absolute index 3. -/
theorem c2_ttr_spec_witness :
    time_to_recovery [(1 : ℚ), 1 / 2, 3 / 4, 1] 1 (2 / 100) = 3 := by
  refine (c2_ttr_spec [(1 : ℚ), 1 / 2, 3 / 4, 1] 1 (2 / 100) (by simp)).2.2.1
    3 (by norm_num [argmin_list, listMin]) (by simp)
    (by norm_num [List.getD_cons_zero, List.getD_cons_succ]) ?_
  intro k h1 h2
  interval_cases k
  · exact absurd h1 (by norm_num [argmin_list, listMin])
  · norm_num [List.getD_cons_zero, List.getD_cons_succ]
  · norm_num [List.getD_cons_zero, List.getD_cons_succ]

/-- Claim C10: for a 1D series whose minimum performance already meets the
threshold `baseline * (1 - eps)`, the ttr metric returns the argmin index
itself, not -1. -/
theorem c10_ttr_at_argmin {α : Type*} [LinearOrderedField α] (perf : List α)
    (b eps : α) (hne : perf ≠ []) (hmin : b * (1 - eps) ≤ listMin perf) :
    time_to_recovery perf b eps = ((argmin_list perf : ℕ) : ℤ) := by
  have hm := argmin_lt_length perf hne
  have hfg : firstGe (b * (1 - eps)) (perf.drop (argmin_list perf)) = some 0 := by
    rw [firstGe_some_iff]
    refine ⟨by rw [List.length_drop]; omega, ?_, by intro k hk; omega⟩
    rw [getD_drop, Nat.add_zero, argmin_getD perf hne]
    exact hmin
  have h := time_to_recovery_of_firstGe perf b eps 0 hfg
  simpa using h

/-- Witness for C10: a constant series at baseline yields ttr 0. -/
theorem c10_ttr_at_argmin_witness :
    time_to_recovery [(1 : ℚ), 1, 1] 1 (2 / 100) = 0 :=
  (c10_ttr_at_argmin [(1 : ℚ), 1, 1] 1 (2 / 100) (by simp)
    (by norm_num [listMin])).trans (by norm_num [argmin_list, listMin])

/-- Claim C4: the resilience index is `1 - area_of_loss / worst_case_loss`
clipped into [0,1], equals 1 when `worst_case_loss` is numerically ~0
(at most the 1e-9 guard), in particular equals 1 when performance never
drops below baseline, and the batch form is the same computation row by
row. -/
theorem c4_resilience_index_spec {α : Type*} [LinearOrderedField α]
    (perf : List α) (b : α) (hne : perf ≠ []) :
    (0 ≤ resilience_index perf b ∧ resilience_index perf b ≤ 1) ∧
    ((1e-9 : α) < worst_case_loss perf b →
      resilience_index perf b =
        clip01 (1 - area_of_loss perf b / worst_case_loss perf b)) ∧
    (worst_case_loss perf b ≤ 1e-9 → resilience_index perf b = 1) ∧
    ((∀ x ∈ perf, b ≤ x) → resilience_index perf b = 1) ∧
    (∀ rows : List (List α), resilience_index_batch rows b =
      rows.map fun r => resilience_index r b) := by
  refine ⟨⟨clip01_nonneg _, clip01_le_one _⟩, ?_, ?_, ?_, fun rows => rfl⟩
  · intro h
    unfold resilience_index
    rw [if_pos h]
  · intro h
    unfold resilience_index
    rw [if_neg (not_lt.mpr h), clip01_one]
  · intro h
    have hmem := listMin_mem perf hne
    have hbm : b ≤ listMin perf := h _ hmem
    have hlen : (0 : α) ≤ (perf.length : α) := Nat.cast_nonneg _
    have hw : worst_case_loss perf b ≤ 0 := by
      unfold worst_case_loss
      exact mul_nonpos_iff.mpr (Or.inr ⟨by linarith, hlen⟩)
    unfold resilience_index
    rw [if_neg (not_lt.mpr (le_trans hw (by norm_num : (0 : α) ≤ 1e-9))),
      clip01_one]

/-- Witness for C4 at a concrete rational series. -/
theorem c4_resilience_index_spec_witness :
    0 ≤ resilience_index [(1 : ℚ), 1 / 2] 1 ∧
    resilience_index [(1 : ℚ), 1 / 2] 1 ≤ 1 :=
  (c4_resilience_index_spec [(1 : ℚ), 1 / 2] 1 (by simp)).1

/-- Claim C7, counterexample: at `duration_days = 12` the code passes
`int(0.3 * 12) = 3` to the curve generator, while `round(0.3 * 12) = 4`:
the source truncates, it does not round. -/
theorem c7_delay_days_counterexample :
    simulate_delay_days (Disruption.mk "port_closure" 0.65 12 2)
      "delayed_rebound" = 3 ∧
    pyround ((0.3 : ℝ) * ((12 : ℕ) : ℝ)) = 4 := by
  constructor
  · unfold simulate_delay_days
    rw [if_pos rfl]
    have h1 : (⌊(0.3 : ℝ) * (((Disruption.mk "port_closure" 0.65 12 2).duration_days : ℕ) : ℝ)⌋ : ℤ) = 3 := by
      norm_num
    rw [h1]
    decide
  · unfold pyround
    have h1 : (⌊(0.3 : ℝ) * ((12 : ℕ) : ℝ)⌋ : ℤ) = 3 := by norm_num
    rw [h1, if_neg (by norm_num)]
    norm_num

/-- Claim C7, amended: for every disruption, `simulate` passes
`delay_days = ⌊3 * duration_days / 10⌋` (truncating integer division, the
Python `int()` of `0.3 * duration_days`) to the curve generator when the
shape is delayed-rebound, and 0 for every other shape. -/
theorem c7_delay_days_amended (d : Disruption) (s : String) :
    simulate_delay_days d s =
      if s = "delayed_rebound" then 3 * d.duration_days / 10 else 0 := by
  unfold simulate_delay_days
  by_cases h : s = "delayed_rebound"
  · rw [if_pos h, if_pos h, Int.floor_toNat]
    have hx : (0.3 : ℝ) * (d.duration_days : ℝ) =
        ((3 * d.duration_days : ℕ) : ℝ) / ((10 : ℕ) : ℝ) := by
      push_cast; ring
    rw [hx, Nat.floor_div_eq_div]
  · rw [if_neg h, if_neg h]

/-- Claim C6, counterexample: with the unknown curve-shape name "weird"
but `start_day = 5 ≥ horizon = 3`, `simulate` returns a trajectory without
error, because `_curve_1d` returns the all-ones curve before ever reaching
the shape dispatch: the claim's "exactly when" fails. -/
theorem c6_unknown_shape_counterexample :
    isKnownShape "weird" = false ∧
    (simulate (Disruption.mk "cyberattack" 0.5 1 5)
      (Policy.mk 0 false false false false) 3 1 "weird").isSome = true := by
  refine ⟨by decide, Option.ne_none_iff_isSome.mp ?_⟩
  intro habs
  rcases (simulate_none_iff _ _ _ _ _).mp habs with h | ⟨_, hlt⟩
  · exact absurd h (by norm_num)
  · exact absurd hlt (by decide)

/-- Claim C6, amended: `simulate` errors exactly when the horizon is
non-positive, or the shape is unknown and additionally
`start_day + 1 < horizon_days` (otherwise the shape dispatch is never
reached and the step/all-ones curve is returned); `simulate_batch` errors
exactly when the horizon is non-positive, a list is empty, the lengths
mismatch with no length-1 side, or the shape is unknown and some scenario
has `start_day + 1 < horizon_days`. -/
theorem c6_error_characterization (d : Disruption) (p : Policy)
    (ds : List Disruption) (ps : List Policy) (hor : ℤ) (b : ℝ) (s : String) :
    (simulate d p hor b s = none ↔
      hor ≤ 0 ∨ (isKnownShape s = false ∧ d.start_day + 1 < hor.toNat)) ∧
    (simulate_batch ds ps hor b s = none ↔
      hor ≤ 0 ∨ ds = [] ∨ ps = [] ∨
        (ds.length ≠ ps.length ∧ ds.length ≠ 1 ∧ ps.length ≠ 1) ∨
        (isKnownShape s = false ∧
          ∃ d2 ∈ ds, d2.start_day + 1 < hor.toNat)) :=
  ⟨simulate_none_iff d p hor b s, simulate_batch_none_iff ds ps hor b s⟩

/-- Rows of a successful batch loop: as many rows as pairs, each the
performance of a successful `simulate` on its pair. -/
theorem mapOpt_sim_rows (hor : ℤ) (b : ℝ) (s : String)
    (pairs : List (Disruption × Policy)) (rows : List (ℕ → ℝ))
    (h : mapOpt
      (fun pr => (simulate pr.1 pr.2 hor b s).map SimResult.performance)
      pairs = some rows) :
    rows.length = pairs.length ∧
    ∀ i (h1 : i < pairs.length) (h2 : i < rows.length),
      ∃ res, simulate (pairs.get ⟨i, h1⟩).1 (pairs.get ⟨i, h1⟩).2 hor b s =
        some res ∧ rows.get ⟨i, h2⟩ = res.performance := by
  refine ⟨mapOpt_length _ _ _ h, ?_⟩
  intro i h1 h2
  obtain ⟨res, hres, hperf⟩ :=
    Option.map_eq_some'.mp (mapOpt_get _ _ _ h i h1 h2)
  exact ⟨res, hres, hperf.symm⟩

/-- Claim C5: a batch with a single disruption and N policies (or
vice versa) succeeds with N rows, row i being the performance of
`simulate` on the i-th broadcast pair. -/
theorem c5_broadcast_rows :
    (∀ (d : Disruption) (ps : List Policy) (hor : ℤ) (b : ℝ) (s : String)
      (rows : List (ℕ → ℝ)),
      simulate_batch [d] ps hor b s = some rows →
        rows.length = ps.length ∧
        ∀ i (h1 : i < ps.length) (h2 : i < rows.length),
          ∃ res, simulate d (ps.get ⟨i, h1⟩) hor b s = some res ∧
            rows.get ⟨i, h2⟩ = res.performance) ∧
    (∀ (ds : List Disruption) (p : Policy) (hor : ℤ) (b : ℝ) (s : String)
      (rows : List (ℕ → ℝ)),
      simulate_batch ds [p] hor b s = some rows →
        rows.length = ds.length ∧
        ∀ i (h1 : i < ds.length) (h2 : i < rows.length),
          ∃ res, simulate (ds.get ⟨i, h1⟩) p hor b s = some res ∧
            rows.get ⟨i, h2⟩ = res.performance) := by
  constructor
  · intro d ps hor b s rows h
    have hh : ¬ hor ≤ 0 := by
      intro hle
      rw [show simulate_batch [d] ps hor b s = none from by
        simp [simulate_batch, hle]] at h
      cases h
    have hps0 : ps.length ≠ 0 := by
      intro hl
      rw [show simulate_batch [d] ps hor b s = none from by
        simp [simulate_batch, hl]] at h
      cases h
    by_cases hp1 : ps.length = 1
    · rw [simulate_batch_pairwise [d] ps hor b s hh (by simp) hps0
        (by simp [hp1])] at h
      obtain ⟨hlen, hget⟩ := mapOpt_sim_rows hor b s ([d].zip ps) rows h
      have hzlen : ([d].zip ps).length = ps.length := by
        rw [List.length_zip]; simp [hp1]
      refine ⟨by rw [hlen, hzlen], ?_⟩
      intro i h1 h2
      have h1z : i < ([d].zip ps).length := by rw [hzlen]; exact h1
      obtain ⟨res, hres, hrow⟩ := hget i h1z h2
      refine ⟨res, ?_, hrow⟩
      have hpair : ([d].zip ps).get ⟨i, h1z⟩ =
          ([d].get ⟨i, by simp; omega⟩, ps.get ⟨i, h1⟩) := by
        simp [List.get_eq_getElem, List.getElem_zip]
      rw [hpair] at hres
      have hi0 : i = 0 := by omega
      subst hi0
      simpa using hres
    · rw [simulate_batch_bcast_left [d] ps hor b s hh (by simp) hps0
        (by simp; omega) (by simp), listMul_singleton] at h
      obtain ⟨hlen, hget⟩ :=
        mapOpt_sim_rows hor b s ((List.replicate ps.length d).zip ps) rows h
      have hzlen : ((List.replicate ps.length d).zip ps).length = ps.length := by
        rw [List.length_zip]; simp
      refine ⟨by rw [hlen, hzlen], ?_⟩
      intro i h1 h2
      have h1z : i < ((List.replicate ps.length d).zip ps).length := by
        rw [hzlen]; exact h1
      obtain ⟨res, hres, hrow⟩ := hget i h1z h2
      refine ⟨res, ?_, hrow⟩
      have hpair : ((List.replicate ps.length d).zip ps).get ⟨i, h1z⟩ =
          ((List.replicate ps.length d).get ⟨i, by simp; exact h1⟩,
            ps.get ⟨i, h1⟩) := by
        simp [List.get_eq_getElem, List.getElem_zip]
      rw [hpair] at hres
      have hrep : (List.replicate ps.length d).get ⟨i, by simp; exact h1⟩ = d := by
        simp [List.get_eq_getElem]
      rw [hrep] at hres
      exact hres
  · intro ds p hor b s rows h
    have hh : ¬ hor ≤ 0 := by
      intro hle
      rw [show simulate_batch ds [p] hor b s = none from by
        simp [simulate_batch, hle]] at h
      cases h
    have hds0 : ds.length ≠ 0 := by
      intro hl
      rw [show simulate_batch ds [p] hor b s = none from by
        simp [simulate_batch, hl]] at h
      cases h
    by_cases hd1 : ds.length = 1
    · rw [simulate_batch_pairwise ds [p] hor b s hh hds0 (by simp)
        (by simp [hd1])] at h
      obtain ⟨hlen, hget⟩ := mapOpt_sim_rows hor b s (ds.zip [p]) rows h
      have hzlen : (ds.zip [p]).length = ds.length := by
        rw [List.length_zip]; simp [hd1]
      refine ⟨by rw [hlen, hzlen], ?_⟩
      intro i h1 h2
      have h1z : i < (ds.zip [p]).length := by rw [hzlen]; exact h1
      obtain ⟨res, hres, hrow⟩ := hget i h1z h2
      refine ⟨res, ?_, hrow⟩
      have hpair : (ds.zip [p]).get ⟨i, h1z⟩ =
          (ds.get ⟨i, h1⟩, [p].get ⟨i, by simp; omega⟩) := by
        simp [List.get_eq_getElem, List.getElem_zip]
      rw [hpair] at hres
      have hi0 : i = 0 := by omega
      subst hi0
      simpa using hres
    · rw [simulate_batch_bcast_right ds [p] hor b s hh hds0 (by simp)
        (by simp; omega) hd1 (by simp), listMul_singleton] at h
      obtain ⟨hlen, hget⟩ :=
        mapOpt_sim_rows hor b s (ds.zip (List.replicate ds.length p)) rows h
      have hzlen : (ds.zip (List.replicate ds.length p)).length = ds.length := by
        rw [List.length_zip]; simp
      refine ⟨by rw [hlen, hzlen], ?_⟩
      intro i h1 h2
      have h1z : i < (ds.zip (List.replicate ds.length p)).length := by
        rw [hzlen]; exact h1
      obtain ⟨res, hres, hrow⟩ := hget i h1z h2
      refine ⟨res, ?_, hrow⟩
      have hpair : (ds.zip (List.replicate ds.length p)).get ⟨i, h1z⟩ =
          (ds.get ⟨i, h1⟩,
            (List.replicate ds.length p).get ⟨i, by simp; exact h1⟩) := by
        simp [List.get_eq_getElem, List.getElem_zip]
      rw [hpair] at hres
      have hrep : (List.replicate ds.length p).get ⟨i, by simp; exact h1⟩ = p := by
        simp [List.get_eq_getElem]
      rw [hrep] at hres
      exact hres

/-- Witness for C5: a concrete broadcast batch succeeds and has one row
per policy. -/
theorem c5_broadcast_rows_witness :
    batchLen (simulate_batch [Disruption.mk "cyberattack" 0.5 1 5]
      [Policy.mk 0 false false false false, Policy.mk 0 true false false false]
      3 1 "linear") = 2 := by
  have hnotnone : simulate_batch [Disruption.mk "cyberattack" 0.5 1 5]
      [Policy.mk 0 false false false false, Policy.mk 0 true false false false]
      3 1 "linear" ≠ none := by
    rw [Ne, simulate_batch_none_iff]
    rintro (h | h | h | h | ⟨hf, _⟩)
    · exact absurd h (by norm_num)
    · cases h
    · cases h
    · simp at h
    · cases hf
  obtain ⟨rows, hrows⟩ := Option.ne_none_iff_exists'.mp hnotnone
  have hlen := (c5_broadcast_rows.1 (Disruption.mk "cyberattack" 0.5 1 5)
    [Policy.mk 0 false false false false, Policy.mk 0 true false false false]
    3 1 "linear" rows hrows).1
  rw [hrows]
  simpa using hlen

theorem c1_eff :
    policy_effects (Policy.mk 0.25 true false true false) =
      (0.6375, 0.6, 0.6) := by
  unfold policy_effects
  norm_num

theorem c1_base_ttr :
    simulate_base_ttr (Disruption.mk "port_closure" 0.65 12 2) = 27 := by
  unfold simulate_base_ttr pyround
  have h1 : ((Disruption.mk "port_closure" 0.65 12 2).duration_days : ℝ) *
      (1.2 + 1.6 * (Disruption.mk "port_closure" 0.65 12 2).severity) =
      26.88 := by
    norm_num
  rw [h1]
  have h2 : (⌊(26.88 : ℝ)⌋ : ℤ) = 26 := by norm_num
  rw [h2, if_neg (by norm_num)]
  have h3 : (⌊(26.88 : ℝ) + 1 / 2⌋ : ℤ) = 27 := by norm_num
  rw [h3]
  decide

theorem c1_ttr :
    simulate_ttr (Disruption.mk "port_closure" 0.65 12 2)
      (Policy.mk 0.25 true false true false) = 16 := by
  unfold simulate_ttr
  rw [c1_base_ttr, c1_eff]
  have h1 : (((27 : ℤ) : ℝ)) * ((0.6375 : ℝ), (0.6 : ℝ), (0.6 : ℝ)).2.1 =
      16.2 := by
    norm_num
  rw [h1]
  unfold pyround
  have h2 : (⌊(16.2 : ℝ)⌋ : ℤ) = 16 := by norm_num
  rw [h2, if_neg (by norm_num)]
  have h3 : (⌊(16.2 : ℝ) + 1 / 2⌋ : ℤ) = 16 := by norm_num
  rw [h3]
  decide

theorem c1_depth :
    clip01 (clip01 ((Disruption.mk "port_closure" 0.65 12 2).severity) *
      (policy_effects (Policy.mk 0.25 true false true false)).1) =
      (0.414375 : ℝ) := by
  rw [c1_eff]
  unfold clip01
  norm_num [min_def, max_def]

theorem c1_sim :
    simulate (Disruption.mk "port_closure" 0.65 12 2)
      (Policy.mk 0.25 true false true false) 80 1 "logistic" =
    (curve_1d "logistic" (1 - 0.414375) 16 80 2 0 0).map
      (fun u => SimResult.mk (fun i => u i * 1) 1 0.414375 16 0.6) := by
  rw [simulate_eq _ _ _ _ _ (by norm_num), c1_depth, c1_ttr, c1_eff]
  have hdelay : simulate_delay_days (Disruption.mk "port_closure" 0.65 12 2)
      "logistic" = 0 := by
    unfold simulate_delay_days
    rw [if_neg (by decide)]
  rw [hdelay]
  norm_num
  rw [show ((16 : ℤ)).toNat = 16 from rfl, show ((80 : ℤ)).toNat = 80 from rfl]

theorem c1_perf_lt2 (j : ℕ) (hj : j < 2) :
    simPerf (simulate (Disruption.mk "port_closure" 0.65 12 2)
      (Policy.mk 0.25 true false true false) 80 1 "logistic") j = 1 := by
  have hsim := c1_sim
  rw [curve_1d_known "logistic" ((1 : ℝ) - 0.414375) 16 80 2 0 0 (by decide)
    (by omega) (by omega), Option.map_some'] at hsim
  rw [hsim]
  simp only [simPerf, Option.elim]
  rw [if_pos hj]
  norm_num

theorem c1_perf2 :
    simPerf (simulate (Disruption.mk "port_closure" 0.65 12 2)
      (Policy.mk 0.25 true false true false) 80 1 "logistic") 2 =
      0.585625 := by
  have hsim := c1_sim
  rw [curve_1d_known "logistic" ((1 : ℝ) - 0.414375) 16 80 2 0 0 (by decide)
    (by omega) (by omega), Option.map_some'] at hsim
  rw [hsim]
  simp only [simPerf, Option.elim]
  rw [if_neg (by omega : ¬ (2 < 2)),
    if_pos (by omega : 2 ≤ min (80 - 1) (2 + 16))]
  have hzero : ((2 - 2 : ℕ) : ℝ) / ((min (80 - 1) (2 + 16) - 2 : ℕ) : ℝ) = 0 := by
    norm_num
  rw [hzero, rec_val_zero "logistic" ((1 : ℝ) - 0.414375) 16 0 (by decide)]
  norm_num

theorem c1_perf_tail (j : ℕ) (hj1 : 18 ≤ j) (hj2 : j < 80) :
    simPerf (simulate (Disruption.mk "port_closure" 0.65 12 2)
      (Policy.mk 0.25 true false true false) 80 1 "logistic") j = 1 := by
  have hsim := c1_sim
  rw [curve_1d_known "logistic" ((1 : ℝ) - 0.414375) 16 80 2 0 0 (by decide)
    (by omega) (by omega), Option.map_some'] at hsim
  rw [hsim]
  simp only [simPerf, Option.elim]
  rw [if_neg (by omega : ¬ (j < 2))]
  have hone : ((min (80 - 1) (2 + 16) - 2 : ℕ) : ℝ) ≠ 0 := by
    have hmin : min (80 - 1) (2 + 16) - 2 = 16 := by omega
    rw [hmin]
    norm_num
  by_cases hj18 : j ≤ min (80 - 1) (2 + 16)
  · rw [if_pos hj18]
    have hje : j = 18 := by omega
    subst hje
    have hx : ((18 - 2 : ℕ) : ℝ) / ((min (80 - 1) (2 + 16) - 2 : ℕ) : ℝ) = 1 := by
      have hmin : min (80 - 1) (2 + 16) - 2 = 16 := by omega
      rw [hmin]
      norm_num
    rw [hx, rec_val_one "logistic" ((1 : ℝ) - 0.414375) 16 0 (by decide)]
    norm_num
  · rw [if_neg hj18]
    have hx : ((min (80 - 1) (2 + 16) - 2 : ℕ) : ℝ) /
        ((min (80 - 1) (2 + 16) - 2 : ℕ) : ℝ) = 1 := div_self hone
    rw [hx, rec_val_one "logistic" ((1 : ℝ) - 0.414375) 16 0 (by decide)]
    norm_num

theorem c1_depth_eval :
    simDepth (simulate (Disruption.mk "port_closure" 0.65 12 2)
      (Policy.mk 0.25 true false true false) 80 1 "logistic") = 0.414375 := by
  have hsim := c1_sim
  rw [curve_1d_known "logistic" ((1 : ℝ) - 0.414375) 16 80 2 0 0 (by decide)
    (by omega) (by omega), Option.map_some'] at hsim
  rw [hsim]
  rfl

theorem c1_ttr_eval :
    simTtr (simulate (Disruption.mk "port_closure" 0.65 12 2)
      (Policy.mk 0.25 true false true false) 80 1 "logistic") = 16 := by
  have hsim := c1_sim
  rw [curve_1d_known "logistic" ((1 : ℝ) - 0.414375) 16 80 2 0 0 (by decide)
    (by omega) (by omega), Option.map_some'] at hsim
  rw [hsim]
  rfl

/-- Claim C1, counterexample: on the spec's worked example the resolved
depth is 0.414375 = 0.65 x (1 - 0.6 x 0.25) x 0.75 and performance[2] is
0.585625; both are more than 0.04 away from the 0.3655 and 0.6345 the
claim states (the spec mis-evaluated its own formula). -/
theorem c1_example_counterexample :
    simDepth (simulate (Disruption.mk "port_closure" 0.65 12 2)
      (Policy.mk 0.25 true false true false) 80 1 "logistic") = 0.414375 ∧
    (0.04 : ℝ) < |(0.414375 : ℝ) - 0.3655| ∧
    simPerf (simulate (Disruption.mk "port_closure" 0.65 12 2)
      (Policy.mk 0.25 true false true false) 80 1 "logistic") 2 = 0.585625 ∧
    (0.04 : ℝ) < |(0.585625 : ℝ) - 0.6345| := by
  refine ⟨c1_depth_eval, by rw [abs_of_pos] <;> norm_num, c1_perf2,
    by rw [abs_of_neg] <;> norm_num⟩

/-- Claim C1, amended: on the worked example the resolved depth is
0.414375 (so performance[2] = 0.585625, not ≈0.6345), base ttr is 27,
resolved ttr is 16, performance[0] = performance[1] = 1.0, and performance
is exactly 1.0 from index 18 through the end of the horizon. -/
theorem c1_example_amended :
    simDepth (simulate (Disruption.mk "port_closure" 0.65 12 2)
      (Policy.mk 0.25 true false true false) 80 1 "logistic") = 0.414375 ∧
    simulate_base_ttr (Disruption.mk "port_closure" 0.65 12 2) = 27 ∧
    simTtr (simulate (Disruption.mk "port_closure" 0.65 12 2)
      (Policy.mk 0.25 true false true false) 80 1 "logistic") = 16 ∧
    simPerf (simulate (Disruption.mk "port_closure" 0.65 12 2)
      (Policy.mk 0.25 true false true false) 80 1 "logistic") 0 = 1 ∧
    simPerf (simulate (Disruption.mk "port_closure" 0.65 12 2)
      (Policy.mk 0.25 true false true false) 80 1 "logistic") 1 = 1 ∧
    simPerf (simulate (Disruption.mk "port_closure" 0.65 12 2)
      (Policy.mk 0.25 true false true false) 80 1 "logistic") 2 = 0.585625 ∧
    ∀ j, 18 ≤ j → j < 80 →
      simPerf (simulate (Disruption.mk "port_closure" 0.65 12 2)
        (Policy.mk 0.25 true false true false) 80 1 "logistic") j = 1 :=
  ⟨c1_depth_eval, c1_base_ttr, c1_ttr_eval, c1_perf_lt2 0 (by omega),
    c1_perf_lt2 1 (by omega), c1_perf2, c1_perf_tail⟩

/-- Witness for the amended C1 at the concrete flat index 19. -/
theorem c1_example_amended_witness :
    simPerf (simulate (Disruption.mk "port_closure" 0.65 12 2)
      (Policy.mk 0.25 true false true false) 80 1 "logistic") 19 = 1 :=
  c1_example_amended.2.2.2.2.2.2 19 (by omega) (by omega)

end Claims

end Resilience
